import Mathlib

/-!
Verification of obs-shaderfilter-plus: mel filter bank utilities
(`src/mel/utils.rs`, `src/mel/filter_bank.rs`) and the effect parameter
staging state machine (`src/effect/effect_param.rs`).

Floating point (`f32`) arithmetic is embedded idealized: rational numbers
for the computational paths (min/max, linear interpolation, ramps, dot
products), real numbers for the logarithmic mel-scale conversions.
Machine-integer indexing (`usize`) is embedded as `Nat`; an out-of-bounds
slice write, which panics in Rust, is embedded as `Option.none`.
-/

/-- Embeds `linspace` from `src/mel/utils.rs`: `num` evenly spaced samples
from `start` to `stop`; `num == 0` gives the empty vector, `num == 1` gives
`[start]`, otherwise `start + i * step` for `i < num` with
`step = (stop - start) / (num - 1)`. -/
def linspace (start stop : ℚ) (num : ℕ) : List ℚ :=
  if num = 0 then []
  else if num = 1 then [start]
  else
    let step := (stop - start) / ((num - 1 : ℕ) : ℚ)
    (List.range num).map (fun i : ℕ => start + (i : ℚ) * step)

namespace MelFilterBank

/-- Embeds the min fold of `MelFilterBank::normalize`: `min_val` starts at
`mel_values[0]` and is folded with `min` over all elements. -/
def foldMin (v0 : ℚ) (l : List ℚ) : ℚ := l.foldl min v0

/-- Embeds the max fold of `MelFilterBank::normalize`. -/
def foldMax (v0 : ℚ) (l : List ℚ) : ℚ := l.foldl max v0

/-- Embeds `MelFilterBank::normalize` from `src/mel/filter_bank.rs`:
empty input gives empty output; if `|max - min| < 1e-6` every output is
`0.5`; otherwise each element is mapped to `(x - min) / (max - min)`. -/
def normalize (mel_values : List ℚ) : List ℚ :=
  match mel_values with
  | [] => []
  | v0 :: _ =>
    let min_val := foldMin v0 mel_values
    let max_val := foldMax v0 mel_values
    if |max_val - min_val| < 1/1000000 then
      mel_values.map (fun _ => (1 : ℚ)/2)
    else
      mel_values.map (fun x => (x - min_val) / (max_val - min_val))

/-- Embeds the rising-slope loop of `MelFilterBank::new`
(`for j in bin_left..bin_center { if bin_center != bin_left { filter[j] = ... } }`).
The index list `js` is `bin_left..bin_center`; the slice write `filter[j]`
panics when out of bounds, embedded as `none`. The bounds check happens only
when the `bin_center != bin_left` guard is taken, as in the source. -/
def riseLoop (left center : ℕ) (js : List ℕ) (filter : List ℚ) : Option (List ℚ) :=
  match js with
  | [] => some filter
  | j :: rest =>
    if center ≠ left then
      if j < filter.length then
        riseLoop left center rest
          (filter.set j (((j - left : ℕ) : ℚ) / ((center - left : ℕ) : ℚ)))
      else none
    else riseLoop left center rest filter

/-- Embeds the falling-slope loop of `MelFilterBank::new`
(`for j in bin_center..bin_right { if bin_right != bin_center { filter[j] = ... } }`). -/
def fallLoop (center right : ℕ) (js : List ℕ) (filter : List ℚ) : Option (List ℚ) :=
  match js with
  | [] => some filter
  | j :: rest =>
    if right ≠ center then
      if j < filter.length then
        fallLoop center right rest
          (filter.set j (((right - j : ℕ) : ℚ) / ((right - center : ℕ) : ℚ)))
      else none
    else fallLoop center right rest filter

/-- Embeds the body of the per-filter loop of `MelFilterBank::new`: a zeroed
row of `n_fft_bins` coefficients, then the rising ramp over
`bin_left..bin_center`, then the falling ramp over `bin_center..bin_right`. -/
def mkFilter (nFftBins left center right : ℕ) : Option (List ℚ) :=
  match riseLoop left center (List.range' left (center - left)) (List.replicate nFftBins 0) with
  | none => none
  | some f1 => fallLoop center right (List.range' center (right - center)) f1

/-- Embeds the outer `for i in 0..n_mels` loop of `MelFilterBank::new`,
reading `bin[i]`, `bin[i + 1]`, `bin[i + 2]` from the precomputed bin list. -/
def filtersFrom (nFftBins : ℕ) (bins : List ℕ) : ℕ → ℕ → Option (List (List ℚ))
  | _, 0 => some []
  | i, n + 1 =>
    match mkFilter nFftBins (bins.getD i 0) (bins.getD (i + 1) 0) (bins.getD (i + 2) 0) with
    | none => none
    | some f =>
      match filtersFrom nFftBins bins (i + 1) n with
      | none => none
      | some rest => some (f :: rest)

/-- Embeds the filter-construction core of `MelFilterBank::new`, parametrized
over the precomputed Hz-to-bin mapping `bins` (whose interior entries come
from the transcendental mel-scale conversion). Row length is
`n_fft_bins = fft_size / 2 + 1`. -/
def newFromBins (nFftBins : ℕ) (bins : List ℕ) (n_mels : ℕ) : Option (List (List ℚ)) :=
  filtersFrom nFftBins bins 0 n_mels

/-- Embeds the Hz-to-FFT-bin mapping of `MelFilterBank::new`:
`((fft_size as f32 + 1.0) * hz / sample_rate).floor() as usize` (the `as usize`
cast saturates negative values to zero, embedded by `Int.toNat`). -/
def binOf (fft_size : ℕ) (sample_rate hz : ℚ) : ℕ :=
  (⌊((fft_size : ℚ) + 1) * hz / sample_rate⌋).toNat

/-- Embeds the inner accumulation loop of `MelFilterBank::apply`: sum of
`filter[j] * fft_magnitudes[j]` over `j < min(fft_magnitudes.len(), filter.len())`. -/
def dotMin (row mags : List ℚ) : ℚ :=
  (List.range (min mags.length row.length)).foldl (fun s j => s + row.getD j 0 * mags.getD j 0) 0

/-- Embeds the output-writing loop of `MelFilterBank::apply`: `mel_output`
starts as `vec![0.0; n_mels]` and entry `i` is overwritten with the dot
product for the `i`-th filter. -/
def applyLoop (mags : List ℚ) : List (List ℚ) → ℕ → List ℚ → List ℚ
  | [], _, out => out
  | f :: rest, i, out => applyLoop mags rest (i + 1) (out.set i (dotMin f mags))

/-- Embeds `MelFilterBank::apply` from `src/mel/filter_bank.rs`, with the
bank represented by its filter rows and `n_mels`. -/
def apply (filters : List (List ℚ)) (n_mels : ℕ) (mags : List ℚ) : List ℚ :=
  applyLoop mags filters 0 (List.replicate n_mels 0)

end MelFilterBank

/-- Embeds `hz_to_mel` from `src/mel/utils.rs`:
`2595.0 * (1.0 + f / 700.0).log10()`, idealized over the reals. -/
noncomputable def hz_to_mel (f : ℝ) : ℝ := 2595 * Real.logb 10 (1 + f / 700)

/-- Embeds `mel_to_hz` from `src/mel/utils.rs`:
`700.0 * (10_f32.powf(m / 2595.0) - 1.0)`, idealized over the reals. -/
noncomputable def mel_to_hz (m : ℝ) : ℝ := 700 * ((10 : ℝ) ^ (m / 2595) - 1)

/-- Embeds the state of `EffectParam<T>` from `src/effect/effect_param.rs`:
an optional prepared value (CPU side) and an optional staged graphics
resource. The graphics context and the underlying GPU parameter handle are
not part of the staging logic and are left out of the state. -/
structure EffectParamS (P R : Type) where
  prepared_value : Option P
  staged_value : Option R
deriving DecidableEq, Repr

namespace EffectParamS

/-- Embeds `EffectParam::new`: the prepared value starts as
`Some(Default::default())` (`d` is the `Default` value of the prepared value
type), nothing is staged. -/
def new (P R : Type) (d : P) : EffectParamS P R := ⟨some d, none⟩

/-- Embeds `EffectParam::prepare_value`. -/
def prepareValue (s : EffectParamS P R) (v : P) : EffectParamS P R :=
  { s with prepared_value := some v }

/-- Embeds `EffectParam::stage_value`: if a prepared value exists it is taken
and converted into a staged resource (`convert` embeds
`EffectParamType::convert_and_stage_value`), replacing — and releasing — any
previously staged resource; otherwise nothing happens. -/
def stageValue (convert : P → R) (s : EffectParamS P R) : EffectParamS P R :=
  match s.prepared_value with
  | some p => ⟨none, some (convert p)⟩
  | none => s

/-- Embeds `EffectParam::stage_value_custom`: stages a given resource
directly, replacing any previously staged one. -/
def stageValueCustom (s : EffectParamS P R) (v : R) : EffectParamS P R :=
  { s with staged_value := some v }

/-- Embeds `EffectParam::take_staged_value` (`self.staged_value.take()`). -/
def takeStagedValue (s : EffectParamS P R) : Option R × EffectParamS P R :=
  (s.staged_value, { s with staged_value := none })

/-- Embeds `EffectParam::assign_value`: reads the staged value and panics
(`.expect(...)`) when none is staged; the state itself is not modified, so
the embedding returns the assigned resource or the panic message. -/
def assignValue (s : EffectParamS P R) : Except String R :=
  match s.staged_value with
  | some v => Except.ok v
  | none => Except.error "Tried to assign a value before staging it."

/-- Embeds `EffectParam::assign_value_if_staged`: calls `assign_value` only
when a value is staged; `ok none` means the call did nothing. -/
def assignValueIfStaged (s : EffectParamS P R) : Except String (Option R) :=
  if (s.staged_value).isSome then (assignValue s).map some else Except.ok none

end EffectParamS

/-- Embeds the state of `EffectParamCustomFFT`: the `current` effect param
(`effect_param`) and the optional `previous` double-buffer slot
(`effect_param_previous`). The property fields and the audio FFT handle are
not part of the staging state. -/
structure EffectParamCustomFFTS (P R : Type) where
  effect_param : EffectParamS P R
  effect_param_previous : Option (EffectParamS P R)
deriving DecidableEq, Repr

namespace EffectParamCustomFFTS

/-- Embeds `EffectParamCustomFFT::prepare_values`: `poll` is the result of the
non-blocking `retrieve_result()` of the audio FFT handle; on `none` the
method returns early and nothing changes; otherwise a texture descriptor is
built from the result (`mkTexture` embeds both the mel and the plain FFT
texture branches) and prepared on the current effect param. -/
def prepareValues (mkTexture : A → P) (poll : Option A)
    (s : EffectParamCustomFFTS P R) : EffectParamCustomFFTS P R :=
  match poll with
  | none => s
  | some result =>
    { s with effect_param := s.effect_param.prepareValue (mkTexture result) }

/-- Embeds `EffectParamCustomFFT::stage_value`: when a previous slot exists,
the currently staged texture (if any) is taken from the current slot and
staged into the previous slot via `stage_value_custom`; then the current
effect param's `stage_value` runs. -/
def stageValue (convert : P → R) (s : EffectParamCustomFFTS P R) :
    EffectParamCustomFFTS P R :=
  let s1 : EffectParamCustomFFTS P R :=
    match s.effect_param_previous with
    | some prev =>
      match s.effect_param.takeStagedValue with
      | (some t, cur) =>
        { effect_param := cur, effect_param_previous := some (prev.stageValueCustom t) }
      | (none, _) => s
    | none => s
  { s1 with effect_param := s1.effect_param.stageValue convert }

/-- Embeds `EffectParamCustomFFT::assign_value`: `assign_value_if_staged` on
the previous slot (when present), then on the current slot. The state is not
modified; the embedding returns the pair of assignments performed. -/
def assignValue (s : EffectParamCustomFFTS P R) :
    Except String (Option R × Option R) :=
  match s.effect_param_previous with
  | some prev =>
    match prev.assignValueIfStaged with
    | Except.error e => Except.error e
    | Except.ok a =>
      match s.effect_param.assignValueIfStaged with
      | Except.error e => Except.error e
      | Except.ok b => Except.ok (a, b)
  | none =>
    match s.effect_param.assignValueIfStaged with
    | Except.error e => Except.error e
    | Except.ok b => Except.ok (none, b)

/-- The per-frame cycle of the FFT adapter on the staging state:
`prepare_values` with the poll outcome, then `stage_value`. (`assign_value`
reads the staged state but never modifies it — see `assignValue`.) -/
def frame (mkTexture : A → P) (convert : P → R) (poll : Option A)
    (s : EffectParamCustomFFTS P R) : EffectParamCustomFFTS P R :=
  stageValue convert (prepareValues mkTexture poll s)

end EffectParamCustomFFTS

/-- C4: `stage_value` consumes and clears the prepared value
(`prepared_value` is `none` afterwards), and a second `stage_value` with no
intervening `prepare_value` is a no-op: the whole state, in particular the
staged resource, is unchanged by the second call. -/
theorem stage_value_consumes_and_is_idempotent (P R : Type) (convert : P → R)
    (s : EffectParamS P R) :
    (s.stageValue convert).prepared_value = none ∧
    (s.stageValue convert).stageValue convert = s.stageValue convert := by
  cases s with
  | mk pv sv => cases pv <;> simp [EffectParamS.stageValue]

/-- C3: `assign_value` signals a fatal error exactly when `staged_value` is
`none`; on a freshly constructed `EffectParam` (prepared value defaulted,
nothing staged) it fails, while `assign_value_if_staged` on the same state
does nothing and succeeds. -/
theorem assign_value_requires_staged (P R : Type) (d : P) :
    (∀ s : EffectParamS P R, s.staged_value = none →
      s.assignValue = Except.error "Tried to assign a value before staging it.") ∧
    (EffectParamS.new P R d).prepared_value = some d ∧
    (EffectParamS.new P R d).assignValue =
      Except.error "Tried to assign a value before staging it." ∧
    (EffectParamS.new P R d).assignValueIfStaged = Except.ok none := by
  refine ⟨?_, rfl, rfl, rfl⟩
  intro s h
  cases s with
  | mk pv sv =>
    cases sv with
    | none => rfl
    | some v => exact absurd h (by simp)

/-- Witness for `assign_value_requires_staged` at `P = R = ℕ`, `d = 0`:
the fresh state stages nothing and `assign_value` on it fails. -/
theorem assign_value_requires_staged_witness :
    (EffectParamS.new ℕ ℕ 0).staged_value = none ∧
    (EffectParamS.new ℕ ℕ 0).assignValue =
      Except.error "Tried to assign a value before staging it." :=
  ⟨rfl, (assign_value_requires_staged ℕ ℕ 0).1 (EffectParamS.new ℕ ℕ 0) rfl⟩

/-- C2: with a previous slot present, after two consecutive frames that each
poll a new FFT result and stage it, the previous slot at the end of frame 2
holds exactly the resource that was staged in the current slot at the end of
frame 1 (and that resource is the conversion of the frame-1 texture; it is
moved, not reconverted). -/
theorem fft_double_buffer_handoff (P R A : Type) (mkTexture : A → P)
    (convert : P → R) (s : EffectParamCustomFFTS P R) (r1 r2 : A)
    (hprev : (s.effect_param_previous).isSome) :
    (EffectParamCustomFFTS.frame mkTexture convert (some r1) s).effect_param.staged_value
      = some (convert (mkTexture r1)) ∧
    ∃ prev2,
      (EffectParamCustomFFTS.frame mkTexture convert (some r2)
        (EffectParamCustomFFTS.frame mkTexture convert (some r1) s)).effect_param_previous
        = some prev2 ∧
      prev2.staged_value =
        (EffectParamCustomFFTS.frame mkTexture convert (some r1) s).effect_param.staged_value := by
  obtain ⟨prev, hp⟩ := Option.isSome_iff_exists.mp hprev
  cases s with
  | mk cur prevSlot =>
    cases cur with
    | mk pv sv =>
      cases hp
      cases sv <;>
        simp [EffectParamCustomFFTS.frame, EffectParamCustomFFTS.prepareValues,
          EffectParamCustomFFTS.stageValue, EffectParamS.prepareValue,
          EffectParamS.takeStagedValue, EffectParamS.stageValueCustom,
          EffectParamS.stageValue]

/-- Witness for `fft_double_buffer_handoff` at `P = R = A = ℕ` with identity
texture construction and conversion, on a state with an empty previous slot. -/
theorem fft_double_buffer_handoff_witness :
    ((⟨⟨none, none⟩, some ⟨none, none⟩⟩ :
      EffectParamCustomFFTS ℕ ℕ).effect_param_previous).isSome = true ∧
    ((EffectParamCustomFFTS.frame id id (some 1)
        (⟨⟨none, none⟩, some ⟨none, none⟩⟩ :
          EffectParamCustomFFTS ℕ ℕ)).effect_param.staged_value = some 1 ∧
      ∃ prev2,
        (EffectParamCustomFFTS.frame id id (some 2)
          (EffectParamCustomFFTS.frame id id (some 1)
            (⟨⟨none, none⟩, some ⟨none, none⟩⟩ :
              EffectParamCustomFFTS ℕ ℕ))).effect_param_previous = some prev2 ∧
        prev2.staged_value =
          (EffectParamCustomFFTS.frame id id (some 1)
            (⟨⟨none, none⟩, some ⟨none, none⟩⟩ :
              EffectParamCustomFFTS ℕ ℕ)).effect_param.staged_value) :=
  ⟨rfl, fft_double_buffer_handoff ℕ ℕ ℕ id id
    ⟨⟨none, none⟩, some ⟨none, none⟩⟩ 1 2 rfl⟩

/-- C1 counterexample: a no-result frame does NOT always leave the staged
state unchanged. With a previous slot present and a texture staged in the
current slot, the full per-frame cycle with a `none` poll moves the current
texture into the previous slot: the current slot no longer stages it. -/
theorem fft_no_result_frame_counterexample :
    (EffectParamCustomFFTS.frame (id : ℕ → ℕ) (id : ℕ → ℕ) none
        (⟨⟨none, some 0⟩, some ⟨none, none⟩⟩ :
          EffectParamCustomFFTS ℕ ℕ)).effect_param.staged_value ≠
      (⟨⟨none, some 0⟩, some ⟨none, none⟩⟩ :
        EffectParamCustomFFTS ℕ ℕ).effect_param.staged_value := by
  decide

/-- C1 amended: on a frame whose poll returns no new result (and with no
leftover prepared value), the staged state is unchanged when the adapter has
no previous slot, or when the previous slot exists but nothing is staged in
the current slot; when a previous slot exists and a texture is staged in the
current slot, that texture is moved to the previous slot and the current
slot ends the frame unstaged. -/
theorem fft_no_result_frame_staged_state (P R A : Type) (mkTexture : A → P)
    (convert : P → R) (s : EffectParamCustomFFTS P R)
    (hpv : s.effect_param.prepared_value = none) :
    (s.effect_param_previous = none →
      EffectParamCustomFFTS.frame mkTexture convert none s = s) ∧
    (∀ prev, s.effect_param_previous = some prev →
      s.effect_param.staged_value = none →
      EffectParamCustomFFTS.frame mkTexture convert none s = s) ∧
    (∀ prev t, s.effect_param_previous = some prev →
      s.effect_param.staged_value = some t →
      EffectParamCustomFFTS.frame mkTexture convert none s =
        ⟨⟨none, none⟩, some (prev.stageValueCustom t)⟩) := by
  cases s with
  | mk cur prevSlot =>
    cases cur with
    | mk pv sv =>
      cases hpv
      refine ⟨?_, ?_, ?_⟩
      · intro h
        cases h
        simp [EffectParamCustomFFTS.frame, EffectParamCustomFFTS.prepareValues,
          EffectParamCustomFFTS.stageValue, EffectParamS.stageValue]
      · intro prev h hsv
        cases h
        cases hsv
        simp [EffectParamCustomFFTS.frame, EffectParamCustomFFTS.prepareValues,
          EffectParamCustomFFTS.stageValue, EffectParamS.takeStagedValue,
          EffectParamS.stageValue]
      · intro prev t h hsv
        cases h
        cases hsv
        simp [EffectParamCustomFFTS.frame, EffectParamCustomFFTS.prepareValues,
          EffectParamCustomFFTS.stageValue, EffectParamS.takeStagedValue,
          EffectParamS.stageValueCustom, EffectParamS.stageValue]

/-- Witness for `fft_no_result_frame_staged_state` at `P = R = A = ℕ`: a
state with a previous slot and `0` staged in the current slot; after a
no-result frame the texture has moved to the previous slot. -/
theorem fft_no_result_frame_staged_state_witness :
    (⟨⟨none, some 0⟩, some ⟨none, none⟩⟩ :
        EffectParamCustomFFTS ℕ ℕ).effect_param.prepared_value = none ∧
    EffectParamCustomFFTS.frame (id : ℕ → ℕ) (id : ℕ → ℕ) none
        (⟨⟨none, some 0⟩, some ⟨none, none⟩⟩ : EffectParamCustomFFTS ℕ ℕ) =
      ⟨⟨none, none⟩, some ((⟨none, none⟩ : EffectParamS ℕ ℕ).stageValueCustom 0)⟩ :=
  ⟨rfl, (fft_no_result_frame_staged_state ℕ ℕ ℕ id id
    ⟨⟨none, some 0⟩, some ⟨none, none⟩⟩ rfl).2.2 ⟨none, none⟩ 0 rfl rfl⟩

/-- C5: `normalize` maps the empty sequence to the empty sequence; when
`|max - min| < 1e-6` it yields a sequence of the same length with every
element `0.5`; otherwise it maps each element `x` to
`(x - min) / (max - min)`; and `normalize [1,2,3] = [0, 0.5, 1]`,
`normalize [5,5,5] = [0.5, 0.5, 0.5]`. -/
theorem normalize_spec :
    MelFilterBank.normalize [] = [] ∧
    (∀ l : List ℚ, (MelFilterBank.normalize l).length = l.length) ∧
    (∀ (v0 : ℚ) (t : List ℚ),
      |MelFilterBank.foldMax v0 (v0 :: t) - MelFilterBank.foldMin v0 (v0 :: t)| < 1/1000000 →
      MelFilterBank.normalize (v0 :: t) = (v0 :: t).map (fun _ => (1 : ℚ)/2)) ∧
    (∀ (v0 : ℚ) (t : List ℚ),
      ¬ |MelFilterBank.foldMax v0 (v0 :: t) - MelFilterBank.foldMin v0 (v0 :: t)| < 1/1000000 →
      MelFilterBank.normalize (v0 :: t) = (v0 :: t).map (fun x =>
        (x - MelFilterBank.foldMin v0 (v0 :: t)) /
          (MelFilterBank.foldMax v0 (v0 :: t) - MelFilterBank.foldMin v0 (v0 :: t)))) ∧
    MelFilterBank.normalize [1, 2, 3] = [0, 1/2, 1] ∧
    MelFilterBank.normalize [5, 5, 5] = [1/2, 1/2, 1/2] := by
  refine ⟨rfl, ?_, ?_, ?_, ?_, ?_⟩
  · intro l
    cases l with
    | nil => rfl
    | cons v0 t =>
      simp only [MelFilterBank.normalize]
      split <;> simp
  · intro v0 t h
    simp only [MelFilterBank.normalize, if_pos h]
  · intro v0 t h
    simp only [MelFilterBank.normalize, if_neg h]
  · norm_num [MelFilterBank.normalize, MelFilterBank.foldMin, MelFilterBank.foldMax]
  · norm_num [MelFilterBank.normalize, MelFilterBank.foldMin, MelFilterBank.foldMax]

/-- Witness for `normalize_spec` on the flat input `[5, 5, 5]`: the range is
degenerate and every output element is `0.5`. -/
theorem normalize_spec_witness :
    |MelFilterBank.foldMax 5 ([5, 5, 5] : List ℚ) -
      MelFilterBank.foldMin 5 ([5, 5, 5] : List ℚ)| < 1/1000000 ∧
    MelFilterBank.normalize [5, 5, 5] = ([5, 5, 5] : List ℚ).map (fun _ => (1 : ℚ)/2) := by
  have h : |MelFilterBank.foldMax 5 ([5, 5, 5] : List ℚ) -
      MelFilterBank.foldMin 5 ([5, 5, 5] : List ℚ)| < 1/1000000 := by
    norm_num [MelFilterBank.foldMin, MelFilterBank.foldMax]
  exact ⟨h, normalize_spec.2.2.1 5 [5, 5] h⟩

/-- C6: `linspace start stop num` has length `num`; with `num = 0` it is
empty; with `num = 1` it is `[start]` (computed without the step division);
and for `num ≥ 2` its first element is `start` and its last element is
`stop`. -/
theorem linspace_spec (start stop : ℚ) (num : ℕ) :
    (linspace start stop num).length = num ∧
    linspace start stop 0 = [] ∧
    linspace start stop 1 = [start] ∧
    (2 ≤ num →
      (linspace start stop num).head? = some start ∧
      (linspace start stop num).getLast? = some stop) := by
  refine ⟨?_, rfl, rfl, ?_⟩
  · unfold linspace
    split
    · simp [*]
    · split <;> simp [*]
  · intro h2
    have h0 : num ≠ 0 := by omega
    have h1 : num ≠ 1 := by omega
    have hstep : ((num - 1 : ℕ) : ℚ) ≠ 0 := Nat.cast_ne_zero.mpr (by omega)
    constructor
    · unfold linspace
      rw [if_neg h0, if_neg h1]
      have hn : num = (num - 1) + 1 := by omega
      rw [hn, List.range_succ_eq_map]
      simp
    · unfold linspace
      rw [if_neg h0, if_neg h1]
      simp only [List.getLast?_eq_getElem?, List.length_map, List.length_range,
        List.getElem?_map]
      rw [List.getElem?_range (by omega : num - 1 < num)]
      simp only [Option.map_some', Option.some.injEq]
      field_simp
      have hne : ((num : ℚ) - 1) ≠ 0 := by
        have h1n : (1 : ℚ) < (num : ℚ) := by exact_mod_cast (by omega : 1 < num)
        linarith
      rw [mul_div_cancel_left₀ _ hne]
      ring

/-- Witness for `linspace_spec` at `(0, 10, 3)`: endpoints are hit exactly. -/
theorem linspace_spec_witness :
    2 ≤ 3 ∧
    ((linspace 0 10 3).head? = some 0 ∧ (linspace 0 10 3).getLast? = some 10) :=
  ⟨by norm_num, (linspace_spec 0 10 3).2.2.2 (by norm_num)⟩

/-- C9: `hz_to_mel` and `mel_to_hz` are an exact inverse pair in the
idealized real-valued semantics: `mel_to_hz (hz_to_mel x) = x` for every
`x ≥ 0` (in `f32` this holds up to floating-point rounding). -/
theorem mel_hz_roundtrip (x : ℝ) (hx : 0 ≤ x) : mel_to_hz (hz_to_mel x) = x := by
  unfold mel_to_hz hz_to_mel
  have h1 : (0 : ℝ) < 1 + x / 700 := by positivity
  rw [mul_div_cancel_left₀ _ (by norm_num : (2595 : ℝ) ≠ 0),
    Real.rpow_logb (by norm_num) (by norm_num) h1]
  ring

/-- Witness for `mel_hz_roundtrip` at `x = 700`. -/
theorem mel_hz_roundtrip_witness :
    (0 : ℝ) ≤ 700 ∧ mel_to_hz (hz_to_mel 700) = 700 :=
  ⟨by norm_num, mel_hz_roundtrip 700 (by norm_num)⟩

/-- Helper: a left fold that adds `g j` over `List.range n` is the finite sum. -/
theorem foldl_add_range (g : ℕ → ℚ) (a : ℚ) (n : ℕ) :
    (List.range n).foldl (fun s j => s + g j) a = a + ∑ j ∈ Finset.range n, g j := by
  induction n generalizing a with
  | zero => simp
  | succ n ih =>
    rw [List.range_succ, List.foldl_append]
    simp only [List.foldl_cons, List.foldl_nil, ih, Finset.sum_range_succ]
    ring

/-- Helper: the inner loop of `MelFilterBank::apply` computes the truncated
dot product as a finite sum. -/
theorem dotMin_eq_sum (row mags : List ℚ) :
    MelFilterBank.dotMin row mags =
      ∑ j ∈ Finset.range (min mags.length row.length), row.getD j 0 * mags.getD j 0 := by
  unfold MelFilterBank.dotMin
  rw [foldl_add_range]
  simp

/-- Helper: the output-writing loop of `MelFilterBank::apply` overwrites the
slots `i`, `i+1`, ... of the accumulator with the per-row dot products. -/
theorem applyLoop_eq (mags : List ℚ) (fs : List (List ℚ)) :
    ∀ (i : ℕ) (out : List ℚ), i + fs.length ≤ out.length →
    MelFilterBank.applyLoop mags fs i out =
      out.take i ++ fs.map (fun f => MelFilterBank.dotMin f mags) ++
        out.drop (i + fs.length) := by
  induction fs with
  | nil =>
    intro i out h
    simp [MelFilterBank.applyLoop, List.take_append_drop]
  | cons f rest ih =>
    intro i out h
    simp only [MelFilterBank.applyLoop]
    have hi : i < out.length := by simp at h; omega
    rw [ih (i + 1) (out.set i (MelFilterBank.dotMin f mags)) (by simp; simp at h; omega)]
    have htake : (out.set i (MelFilterBank.dotMin f mags)).take (i + 1) =
        out.take i ++ [MelFilterBank.dotMin f mags] := by
      rw [List.set_eq_take_cons_drop _ hi, List.take_append_eq_append_take, List.take_take]
      simp [Nat.min_def, List.length_take_of_le (le_of_lt hi)]
    have hdrop : (out.set i (MelFilterBank.dotMin f mags)).drop (i + 1 + rest.length) =
        out.drop (i + 1 + rest.length) :=
      List.drop_set_of_lt _ _ (by omega)
    rw [htake, hdrop]
    simp only [List.map_cons, List.length_cons, List.append_assoc, List.cons_append,
      List.nil_append]
    rw [show i + (rest.length + 1) = i + 1 + rest.length by omega]

/-- C7: `MelFilterBank::apply` returns a dense vector of length `n_mels`
whose `i`-th entry is the dot product of filter row `i` against the
magnitudes over the first `min(len(magnitudes), len(row))` positions; bins
beyond the shorter length contribute zero. -/
theorem apply_spec (filters : List (List ℚ)) (n_mels : ℕ) (mags : List ℚ)
    (h : filters.length = n_mels) :
    (MelFilterBank.apply filters n_mels mags).length = n_mels ∧
    MelFilterBank.apply filters n_mels mags =
      filters.map (fun row =>
        ∑ j ∈ Finset.range (min mags.length row.length),
          row.getD j 0 * mags.getD j 0) := by
  have e := applyLoop_eq mags filters 0 (List.replicate n_mels 0) (by simp [h])
  unfold MelFilterBank.apply
  rw [e]
  simp only [List.take_zero, Nat.zero_add, h, List.drop_replicate, Nat.sub_self,
    List.replicate_zero, List.nil_append, List.append_nil]
  constructor
  · simp [h]
  · exact List.map_congr_left (fun row _ => dotMin_eq_sum row mags)

/-- C8: in the triangular filter construction, a degenerate band is skipped:
when `center = left` the rising ramp contributes nothing (the filter is
exactly the result of the falling ramp on the zeroed row), and when
`right = center` the falling ramp contributes nothing; moreover either ramp
modifies the row only when its band has positive width, in which case the
divisor (`center - left`, resp. `right - center`) is nonzero — so no
division by zero occurs for any construction parameters. -/
theorem mel_filter_degenerate_ramps (nFftBins : ℕ) :
    (∀ l r : ℕ, MelFilterBank.mkFilter nFftBins l l r =
      MelFilterBank.fallLoop l r (List.range' l (r - l)) (List.replicate nFftBins 0)) ∧
    (∀ l c : ℕ, MelFilterBank.mkFilter nFftBins l c c =
      MelFilterBank.riseLoop l c (List.range' l (c - l)) (List.replicate nFftBins 0)) ∧
    (∀ (l c : ℕ) (f f' : List ℚ),
      MelFilterBank.riseLoop l c (List.range' l (c - l)) f = some f' → f' ≠ f →
      ((c - l : ℕ) : ℚ) ≠ 0) ∧
    (∀ (c r : ℕ) (f f' : List ℚ),
      MelFilterBank.fallLoop c r (List.range' c (r - c)) f = some f' → f' ≠ f →
      ((r - c : ℕ) : ℚ) ≠ 0) := by
  refine ⟨?_, ?_, ?_, ?_⟩
  · intro l r
    simp [MelFilterBank.mkFilter, MelFilterBank.riseLoop, Nat.sub_self]
  · intro l c
    unfold MelFilterBank.mkFilter
    cases hR : MelFilterBank.riseLoop l c (List.range' l (c - l)) (List.replicate nFftBins 0) with
    | none => rfl
    | some f1 => simp [Nat.sub_self, MelFilterBank.fallLoop]
  · intro l c f f' hsome hne
    by_cases hlc : l < c
    · exact Nat.cast_ne_zero.mpr (by omega)
    · have h0 : c - l = 0 := by omega
      rw [h0] at hsome
      simp only [List.range'_zero, MelFilterBank.riseLoop] at hsome
      exact absurd (Option.some.inj hsome).symm hne
  · intro c r f f' hsome hne
    by_cases hcr : c < r
    · exact Nat.cast_ne_zero.mpr (by omega)
    · have h0 : r - c = 0 := by omega
      rw [h0] at hsome
      simp only [List.range'_zero, MelFilterBank.fallLoop] at hsome
      exact absurd (Option.some.inj hsome).symm hne

/-- Witness for `mel_filter_degenerate_ramps`: a width-2 rising band on a
2-bin row writes the ramp value `1/2`, and its divisor `2` is nonzero. -/
theorem mel_filter_degenerate_ramps_witness :
    MelFilterBank.riseLoop 0 2 (List.range' 0 (2 - 0)) [0, 0] = some [0, 1/2] ∧
    ([0, 1/2] : List ℚ) ≠ [0, 0] ∧
    ((2 - 0 : ℕ) : ℚ) ≠ 0 :=
  ⟨by norm_num [MelFilterBank.riseLoop, List.range'],
   by norm_num,
   (mel_filter_degenerate_ramps 2).2.2.1 0 2 [0, 0] [0, 1/2]
     (by norm_num [MelFilterBank.riseLoop, List.range']) (by norm_num)⟩

/-- Helper: a successful rising-ramp loop preserves the row length. -/
theorem riseLoop_some_length (l c : ℕ) :
    ∀ (js : List ℕ) (f f' : List ℚ),
      MelFilterBank.riseLoop l c js f = some f' → f'.length = f.length := by
  intro js
  induction js with
  | nil => intro f f' h; cases h; rfl
  | cons j rest ih =>
    intro f f' h
    unfold MelFilterBank.riseLoop at h
    by_cases hg : c ≠ l
    · rw [if_pos hg] at h
      by_cases hj : j < f.length
      · rw [if_pos hj] at h
        have := ih _ _ h
        simpa using this
      · rw [if_neg hj] at h
        cases h
    · rw [if_neg hg] at h
      exact ih _ _ h

/-- Helper: a successful falling-ramp loop preserves the row length. -/
theorem fallLoop_some_length (c r : ℕ) :
    ∀ (js : List ℕ) (f f' : List ℚ),
      MelFilterBank.fallLoop c r js f = some f' → f'.length = f.length := by
  intro js
  induction js with
  | nil => intro f f' h; cases h; rfl
  | cons j rest ih =>
    intro f f' h
    unfold MelFilterBank.fallLoop at h
    by_cases hg : r ≠ c
    · rw [if_pos hg] at h
      by_cases hj : j < f.length
      · rw [if_pos hj] at h
        have := ih _ _ h
        simpa using this
      · rw [if_neg hj] at h
        cases h
    · rw [if_neg hg] at h
      exact ih _ _ h

/-- Helper: when the guard is active, a successful rising-ramp loop means
every visited index was inside the row. -/
theorem riseLoop_some_bound (l c : ℕ) (hg : c ≠ l) :
    ∀ (js : List ℕ) (f f' : List ℚ),
      MelFilterBank.riseLoop l c js f = some f' → ∀ j ∈ js, j < f.length := by
  intro js
  induction js with
  | nil => intro f f' _ j hj; cases hj
  | cons j0 rest ih =>
    intro f f' h j hj
    unfold MelFilterBank.riseLoop at h
    rw [if_pos hg] at h
    by_cases hj0 : j0 < f.length
    · rw [if_pos hj0] at h
      cases hj with
      | head => exact hj0
      | tail _ hmem =>
        have := ih _ _ h j hmem
        simpa using this
    · rw [if_neg hj0] at h
      cases h

/-- Helper: when the guard is active, a successful falling-ramp loop means
every visited index was inside the row. -/
theorem fallLoop_some_bound (c r : ℕ) (hg : r ≠ c) :
    ∀ (js : List ℕ) (f f' : List ℚ),
      MelFilterBank.fallLoop c r js f = some f' → ∀ j ∈ js, j < f.length := by
  intro js
  induction js with
  | nil => intro f f' _ j hj; cases hj
  | cons j0 rest ih =>
    intro f f' h j hj
    unfold MelFilterBank.fallLoop at h
    rw [if_pos hg] at h
    by_cases hj0 : j0 < f.length
    · rw [if_pos hj0] at h
      cases hj with
      | head => exact hj0
      | tail _ hmem =>
        have := ih _ _ h j hmem
        simpa using this
    · rw [if_neg hj0] at h
      cases h

/-- Helper: the rising-ramp loop succeeds when every visited index is inside
the row. -/
theorem riseLoop_isSome (l c : ℕ) :
    ∀ (js : List ℕ) (f : List ℚ), (∀ j ∈ js, j < f.length) →
      (MelFilterBank.riseLoop l c js f).isSome := by
  intro js
  induction js with
  | nil => intro f _; rfl
  | cons j0 rest ih =>
    intro f h
    unfold MelFilterBank.riseLoop
    by_cases hg : c ≠ l
    · rw [if_pos hg, if_pos (h j0 (List.mem_cons_self j0 rest))]
      exact ih _ (fun j hj => by
        simpa using h j (List.mem_cons_of_mem _ hj))
    · rw [if_neg hg]
      exact ih _ (fun j hj => h j (List.mem_cons_of_mem _ hj))

/-- Helper: the falling-ramp loop succeeds when every visited index is
inside the row. -/
theorem fallLoop_isSome (c r : ℕ) :
    ∀ (js : List ℕ) (f : List ℚ), (∀ j ∈ js, j < f.length) →
      (MelFilterBank.fallLoop c r js f).isSome := by
  intro js
  induction js with
  | nil => intro f _; rfl
  | cons j0 rest ih =>
    intro f h
    unfold MelFilterBank.fallLoop
    by_cases hg : r ≠ c
    · rw [if_pos hg, if_pos (h j0 (List.mem_cons_self j0 rest))]
      exact ih _ (fun j hj => by
        simpa using h j (List.mem_cons_of_mem _ hj))
    · rw [if_neg hg]
      exact ih _ (fun j hj => h j (List.mem_cons_of_mem _ hj))

/-- Helper: one triangular filter is built successfully when its center and
right bin edges are at most the row length. -/
theorem mkFilter_isSome (nFftBins l c r : ℕ) (hc : c ≤ nFftBins) (hr : r ≤ nFftBins) :
    (MelFilterBank.mkFilter nFftBins l c r).isSome := by
  unfold MelFilterBank.mkFilter
  have hrise : (MelFilterBank.riseLoop l c (List.range' l (c - l))
      (List.replicate nFftBins (0 : ℚ))).isSome := by
    apply riseLoop_isSome
    intro j hj
    rw [List.mem_range'_1] at hj
    simp only [List.length_replicate]
    omega
  obtain ⟨f1, hf1⟩ := Option.isSome_iff_exists.mp hrise
  rw [hf1]
  have hlen : f1.length = nFftBins := by
    have := riseLoop_some_length l c _ _ _ hf1
    simpa using this
  apply fallLoop_isSome
  intro j hj
  rw [List.mem_range'_1] at hj
  omega

/-- Helper: success of a failing filter-construction is refuted: with row
length `257` and boundary bins `0` and `513`, every choice of the center bin
makes some ramp write out of bounds. -/
theorem mkFilter_0_c_513_none (c : ℕ) :
    MelFilterBank.mkFilter 257 0 c 513 = none := by
  cases hM : MelFilterBank.mkFilter 257 0 c 513 with
  | none => rfl
  | some f' =>
    exfalso
    unfold MelFilterBank.mkFilter at hM
    by_cases hc : c ≤ 257
    · cases hR : MelFilterBank.riseLoop 0 c (List.range' 0 (c - 0))
          (List.replicate 257 (0 : ℚ)) with
      | none => rw [hR] at hM; cases hM
      | some f1 =>
        rw [hR] at hM
        have hlen : f1.length = 257 := by
          have hx := riseLoop_some_length 0 c _ _ _ hR
          rw [List.length_replicate] at hx
          exact hx
        have hb := fallLoop_some_bound c 513 (by omega) _ _ _ hM 257
          (by rw [List.mem_range'_1]; omega)
        omega
    · cases hR : MelFilterBank.riseLoop 0 c (List.range' 0 (c - 0))
          (List.replicate 257 (0 : ℚ)) with
      | none => rw [hR] at hM; cases hM
      | some f1 =>
        have hb := riseLoop_some_bound 0 c (by omega) _ _ _ hR 257
          (by rw [List.mem_range'_1]; omega)
        simp only [List.length_replicate] at hb
        omega

/-- C10: the filter rows of `MelFilterBank::new` have fixed length
`fft_size / 2 + 1` and the ramp loops write at the bin indices without bounds
guarding, so construction completes exactly under the precondition that every
boundary bin index is at most `fft_size / 2 + 1`; with
`fft_size = 512`, `sample_rate = 16000`, `f_min = 0` and `f_max = 16000`
(inside the permitted `[0, 20000]` property range and above
`sample_rate / 2`), the boundary bins map to `0` and `513 > 257`, and
construction panics for every possible interior (center) bin. -/
theorem mel_filter_bank_bin_bounds (nFftBins : ℕ) (bins : List ℕ) (n : ℕ)
    (h : ∀ b ∈ bins, b ≤ nFftBins) :
    (MelFilterBank.newFromBins nFftBins bins n).isSome ∧
    512 / 2 + 1 = 257 ∧
    MelFilterBank.binOf 512 16000 0 = 0 ∧
    MelFilterBank.binOf 512 16000 16000 = 513 ∧
    (∀ c : ℕ, MelFilterBank.newFromBins 257 [0, c, 513] 1 = none) := by
  refine ⟨?_, rfl, ?_, ?_, ?_⟩
  · have key : ∀ (m i : ℕ), (MelFilterBank.filtersFrom nFftBins bins i m).isSome := by
      intro m
      induction m with
      | zero => intro i; rfl
      | succ m ih =>
        intro i
        unfold MelFilterBank.filtersFrom
        have hgetD : ∀ k, bins.getD k 0 ≤ nFftBins := by
          intro k
          by_cases hk : k < bins.length
          · rw [List.getD_eq_getElem _ _ hk]
            exact h _ (List.getElem_mem hk)
          · rw [List.getD_eq_default _ _ (by omega)]
            exact Nat.zero_le _
        have hmk := mkFilter_isSome nFftBins (bins.getD i 0) (bins.getD (i + 1) 0)
          (bins.getD (i + 2) 0) (hgetD (i + 1)) (hgetD (i + 2))
        obtain ⟨f, hf⟩ := Option.isSome_iff_exists.mp hmk
        rw [hf]
        obtain ⟨rest, hrest⟩ := Option.isSome_iff_exists.mp (ih (i + 1))
        rw [hrest]
        rfl
    exact key n 0
  · norm_num [MelFilterBank.binOf]
  · norm_num [MelFilterBank.binOf]
    decide
  · intro c
    unfold MelFilterBank.newFromBins MelFilterBank.filtersFrom
    have h0 : ([0, c, 513] : List ℕ).getD 0 0 = 0 := rfl
    have h1 : ([0, c, 513] : List ℕ).getD 1 0 = c := rfl
    have h2 : ([0, c, 513] : List ℕ).getD 2 0 = 513 := rfl
    rw [h0, h1, h2, mkFilter_0_c_513_none c]

/-- Witness for `mel_filter_bank_bin_bounds`: all bins of `[0, 100, 257]`
are at most `257`, so the construction with row length `257` succeeds there,
while the `f_max = 16000` boundary bin `513` makes it fail for every center. -/
theorem mel_filter_bank_bin_bounds_witness :
    (∀ b ∈ ([0, 100, 257] : List ℕ), b ≤ 257) ∧
    ((MelFilterBank.newFromBins 257 [0, 100, 257] 1).isSome ∧
      512 / 2 + 1 = 257 ∧
      MelFilterBank.binOf 512 16000 0 = 0 ∧
      MelFilterBank.binOf 512 16000 16000 = 513 ∧
      (∀ c : ℕ, MelFilterBank.newFromBins 257 [0, c, 513] 1 = none)) :=
  ⟨by decide, mel_filter_bank_bin_bounds 257 [0, 100, 257] 1 (by decide)⟩

/-- Witness for `apply_spec` with two filter rows and a single magnitude. -/
theorem apply_spec_witness :
    ([[1], [2]] : List (List ℚ)).length = 2 ∧
    ((MelFilterBank.apply [[1], [2]] 2 [3]).length = 2 ∧
      MelFilterBank.apply [[1], [2]] 2 [3] =
        ([[1], [2]] : List (List ℚ)).map (fun row =>
          ∑ j ∈ Finset.range (min ([3] : List ℚ).length row.length),
            row.getD j 0 * ([3] : List ℚ).getD j 0)) :=
  ⟨rfl, apply_spec [[1], [2]] 2 [3] rfl⟩
